import Mathlib

/-!
# Verification of the diff-review core of the Node MCP server

This file shallowly embeds the diff-processing core of the Express MCP
GitHub-reviewer server (`chunkDiffContent`, `parseLineComments`,
`findFileAndPositionForLine`, `generateAIReview`, `generateFallbackReview`,
`extractSuggestions`, `extractIssues`, `extractScore`, `postLineComment`)
and proves or refutes the specification's claims about it.

JavaScript string primitives (`split`, `trim`, `startsWith`, `endsWith`,
`includes`, `parseInt`, regex matching for the two patterns the source
uses) are modelled explicitly over `List Char` so that every definition is
executable and kernel-reducible.  JS `number` values that can be `NaN`
(the result of `parseInt`) are modelled as `Option Int`, with `none`
playing the role of `NaN` (it compares unequal to everything).
-/

/-! ## JavaScript string primitives -/

/-- JS `String.prototype.split` with a single-character separator, at the
character-list level: every occurrence of `c` is a separator and empty
pieces are kept (`"".split(x) = [""]`, `"a\n".split("\n") = ["a",""]`). -/
def splitOnCharList (c : Char) : List Char → List (List Char)
  | [] => [[]]
  | x :: xs =>
    if x = c then [] :: splitOnCharList c xs
    else
      match splitOnCharList c xs with
      | [] => [[x]]
      | h :: t => (x :: h) :: t

/-- JS `s.split(c)` for a one-character separator `c`. -/
def jsSplitChar (c : Char) (s : String) : List String :=
  (splitOnCharList c s.data).map String.mk

/-- JS `s.split(c, limit)`: the split truncated to the first `limit` fields
(the remainder of the string is discarded, unlike Python's `maxsplit`). -/
def jsSplitCharLimit (c : Char) (limit : Nat) (s : String) : List String :=
  (jsSplitChar c s).take limit

/-- JS `s.startsWith(pre)`. -/
def jsStartsWith (s pre : String) : Bool :=
  pre.data.isPrefixOf s.data

/-- JS `s.endsWith(suf)`. -/
def jsEndsWith (s suf : String) : Bool :=
  suf.data.isSuffixOf s.data

/-- Whitespace test used by JS `trim` and the `\s` regex class (ASCII part). -/
def isWsChar (c : Char) : Bool :=
  c.isWhitespace

/-- JS `s.trim()`. -/
def trimJS (s : String) : String :=
  String.mk (((s.data.dropWhile isWsChar).reverse.dropWhile isWsChar).reverse)

/-- JS `s.toLowerCase()` (ASCII case folding, all the source needs). -/
def toLowerJS (s : String) : String :=
  String.mk (s.data.map Char.toLower)

/-- Substring search over character lists (JS `String.prototype.includes`). -/
def containsSubList (pat : List Char) : List Char → Bool
  | [] => pat.isEmpty
  | x :: xs => pat.isPrefixOf (x :: xs) || containsSubList pat xs

/-- JS `s.includes(pat)`. -/
def containsSub (s pat : String) : Bool :=
  containsSubList pat.data s.data

/-- Numeric value of a (non-empty) list of decimal digits. -/
def natOfDigits (l : List Char) : Nat :=
  l.foldl (fun acc c => acc * 10 + (c.toNat - '0'.toNat)) 0

/-- JS `parseInt(s, 10)`: skip leading whitespace, read an optional sign and
then the longest prefix of decimal digits; `NaN` (here `none`) if that
prefix is empty, otherwise the signed value of the digit prefix (trailing
garbage is ignored, so `parseInt("4x") = 4`). -/
def parseIntJS (s : String) : Option Int :=
  let rest := s.data.dropWhile isWsChar
  let signAndRest : Bool × List Char :=
    match rest with
    | '-' :: r => (true, r)
    | '+' :: r => (false, r)
    | r => (false, r)
  let digits := signAndRest.2.takeWhile Char.isDigit
  if digits.isEmpty then none
  else if signAndRest.1 then some (-(natOfDigits digits : Int))
  else some (natOfDigits digits : Int)

/-- JS truthiness of a nullable string (`null` and `""` are falsy). -/
def jsTruthy : Option String → Bool
  | none => false
  | some s => !s.isEmpty

/-! ## DiffChunker (`chunkDiffContent`)

Source: `function chunkDiffContent(diffContent, maxChunkSize = 2000)`.
The loop state is the current chunk (list of lines) and its running size
(`Σ (line.length + 1)`); a line is started in a new chunk whenever adding
it would exceed the budget and the current chunk is non-empty. -/

/-- `line.length + 1` — the size the source charges for one line (the `+1`
is for the newline). -/
def lineSize (l : String) : Nat :=
  l.length + 1

/-- The accumulation loop of `chunkDiffContent`, producing chunks as lists
of lines (the source joins each chunk with `'\n'` when emitting it). -/
def chunkLoop (maxChunkSize : Nat) : List String → List String → Nat → List (List String)
  | [], currentChunk, _ =>
    if currentChunk.isEmpty then [] else [currentChunk]
  | line :: rest, currentChunk, currentSize =>
    if currentSize + lineSize line > maxChunkSize && !currentChunk.isEmpty then
      currentChunk :: chunkLoop maxChunkSize rest [line] (lineSize line)
    else
      chunkLoop maxChunkSize rest (currentChunk ++ [line]) (currentSize + lineSize line)

/-- JS `lines.join('\n')`. -/
def joinLines : List String → String
  | [] => ""
  | [l] => l
  | l :: l' :: ls => l ++ "\n" ++ joinLines (l' :: ls)

/-- `chunkDiffContent` at the line level: each produced chunk is the list of
diff lines it contains (the source's chunks are exactly these, joined with
`'\n'`). -/
def chunkDiffContentLines (diffContent : String) (maxChunkSize : Nat) : List (List String) :=
  if diffContent.length ≤ maxChunkSize then [jsSplitChar '\n' diffContent]
  else chunkLoop maxChunkSize (jsSplitChar '\n' diffContent) [] 0

/-- `chunkDiffContent(diffContent, maxChunkSize)` from the source: returns
the whole diff as one chunk when it fits the budget, otherwise accumulates
whole lines into chunks. -/
def chunkDiffContent (diffContent : String) (maxChunkSize : Nat) : List String :=
  if diffContent.length ≤ maxChunkSize then [diffContent]
  else (chunkLoop maxChunkSize (jsSplitChar '\n' diffContent) [] 0).map joinLines

/-! ## LineCommentParser (`parseLineComments`)

Source: scans the AI response line by line; a trimmed line starting with
`LINE_COMMENT:` is split by JS `split(':', 3)`; when at least three fields
result, an entry is pushed with `parseInt(parts[1].trim(), 10)` as line
number and `parts[2].trim()` as comment.  JS `parseInt` never throws, so
the source's `try`/`catch` ("Skip invalid line numbers") cannot fire; a
non-numeric field flows through as `NaN`, modelled here as `none`. -/

/-- One parsed line comment (`{line_number, comment, chunk_index}`).  The
`line_number` is a JS number that can be `NaN`, hence `Option Int`. -/
structure LineComment where
  line_number : Option Int
  comment : String
  chunk_index : Nat
deriving DecidableEq, Repr

/-- `parseLineComments(response, chunkIndex)` from the source. -/
def parseLineComments (response : String) (chunkIndex : Nat) : List LineComment :=
  (jsSplitChar '\n' response).foldl
    (fun acc line =>
      let trimmedLine := trimJS line
      if jsStartsWith trimmedLine "LINE_COMMENT:" then
        let parts := jsSplitCharLimit ':' 3 trimmedLine
        match parts with
        | _ :: numField :: commentField :: _ =>
          acc ++ [{ line_number := parseIntJS (trimJS numField),
                    comment := trimJS commentField,
                    chunk_index := chunkIndex }]
        | _ => acc
      else acc)
    []

/-! ## DiffPositionResolver (`findFileAndPositionForLine`)

Source: walks the split diff keeping `currentFile` (from `diff --git`
lines), `currentPosition`, `inHunk` and `hunkStartLine` (from `@@` headers
via the regex `/@@ -(\d+),?\d* \+(\d+),?\d* @@/`).  Inside a hunk, only
lines starting with `'+'` advance `currentPosition`; the added line whose
computed number `hunkStartLine + currentPosition - 1` equals the target is
returned together with `currentPosition`. -/

/-- Longest prefix of decimal digits and the remainder. -/
def takeDigits (l : List Char) : List Char × List Char :=
  (l.takeWhile Char.isDigit, l.dropWhile Char.isDigit)

/-- Skip an optional `,` followed by any run of digits (the `,?\d*` part of
the hunk-header regex; the two character classes are disjoint, so greedy
matching without backtracking is exact). -/
def skipCommaDigits (l : List Char) : List Char :=
  match l with
  | ',' :: r => r.dropWhile Char.isDigit
  | r => r

/-- Try to match `@@ -(\d+),?\d* \+(\d+),?\d* @@` at the head of `l`,
returning the second capture group (the new-file start line). -/
def hunkMatchAt (l : List Char) : Option Nat :=
  match l with
  | '@' :: '@' :: ' ' :: '-' :: r =>
    let d1 := takeDigits r
    if d1.1.isEmpty then none
    else
      match skipCommaDigits d1.2 with
      | ' ' :: '+' :: r2 =>
        let d2 := takeDigits r2
        if d2.1.isEmpty then none
        else
          match skipCommaDigits d2.2 with
          | ' ' :: '@' :: '@' :: _ => some (natOfDigits d2.1)
          | _ => none
      | _ => none
  | _ => none

/-- Leftmost match of the hunk-header regex in a line (JS `line.match`). -/
def hunkSearch : List Char → Option Nat
  | [] => none
  | c :: cs =>
    match hunkMatchAt (c :: cs) with
    | some n => some n
    | none => hunkSearch cs

/-- `line.match(/@@ -(\d+),?\d* \+(\d+),?\d* @@/)`, keeping `match[2]`
parsed with `parseInt` (the capture is all digits, so this is its value). -/
def parseHunkHeader (line : String) : Option Nat :=
  hunkSearch line.data

/-- `parts[3].substring(2)` of `line.split(' ')` when there are at least
four fields: the `b/`-side path of a `diff --git a/X b/Y` header.  When
there are fewer than four fields the source leaves `currentFile` as is. -/
def gitHeaderFile (line : String) (currentFile : Option String) : Option String :=
  match jsSplitChar ' ' line with
  | _ :: _ :: _ :: p3 :: _ => some (String.mk (p3.data.drop 2))
  | _ => currentFile

/-- The scan loop of `findFileAndPositionForLine`, one step per diff line.
State: `currentFile`, `currentPosition`, `inHunk`, `hunkStartLine`. -/
def findLoop (lineNumber : Int) :
    List String → Option String → Int → Bool → Int → Option String × Int
  | [], _, _, _, _ => (none, -1)
  | line :: rest, currentFile, currentPosition, inHunk, hunkStartLine =>
    if jsStartsWith line "diff --git" then
      findLoop lineNumber rest (gitHeaderFile line currentFile) 0 false hunkStartLine
    else if jsStartsWith line "@@" then
      match parseHunkHeader line with
      | some start => findLoop lineNumber rest currentFile 0 true (start : Int)
      | none => findLoop lineNumber rest currentFile currentPosition true hunkStartLine
    else if inHunk && jsTruthy currentFile then
      if jsStartsWith line "+" then
        if hunkStartLine + (currentPosition + 1) - 1 == lineNumber then
          (currentFile, currentPosition + 1)
        else
          findLoop lineNumber rest currentFile (currentPosition + 1) inHunk hunkStartLine
      else
        findLoop lineNumber rest currentFile currentPosition inHunk hunkStartLine
    else
      findLoop lineNumber rest currentFile currentPosition inHunk hunkStartLine

/-- `findFileAndPositionForLine` on an already-split diff. -/
def findFileAndPositionForLineLines (lines : List String) (lineNumber : Int) :
    Option String × Int :=
  findLoop lineNumber lines none 0 false 0

/-- `findFileAndPositionForLine(diffContent, lineNumber)` from the source:
returns `{filePath: string|null, position: number}`, `(null, -1)` when the
target line is never matched. -/
def findFileAndPositionForLine (diffContent : String) (lineNumber : Int) :
    Option String × Int :=
  findFileAndPositionForLineLines (jsSplitChar '\n' diffContent) lineNumber

/-! ## ReviewAggregator data and helpers

Source: `PRAnalysisRequest`, `detectLanguages`, `formatFilesByLanguage`,
`generateLanguageSpecificFallback`, `generateFallbackReview`,
`extractSuggestions`, `extractIssues`, `extractScore`, `generateAIReview`,
and the posting path `postLineComment` invoked per line comment by the
`/analyze-pr` handler. -/

/-- The request body of `/analyze-pr`. -/
structure PRAnalysisRequest where
  pr_number : Nat
  pr_title : String
  pr_body : String
  pr_author : String
  changed_files : List String
  diff_content : String
  repository : String
  github_token : String
deriving DecidableEq, Repr

/-- The response record of `generateAIReview` (chunked variant). -/
structure ReviewResponse where
  review_comment : String
  suggestions : List String
  issues : List String
  overall_score : Nat
  line_comments : List LineComment
deriving DecidableEq, Repr

/-- JS `array.join(sep)`. -/
def joinWith (sep : String) : List String → String
  | [] => ""
  | [x] => x
  | x :: y :: r => x ++ sep ++ joinWith sep (y :: r)

/-- The language the `detectLanguages` / `formatFilesByLanguage` cascade of
extension tests assigns to one file (`None` when no branch matches). -/
def languageOf (file : String) : Option String :=
  if jsEndsWith file ".js" || jsEndsWith file ".jsx" ||
     jsEndsWith file ".ts" || jsEndsWith file ".tsx" then some "JavaScript/TypeScript"
  else if jsEndsWith file ".py" then some "Python"
  else if jsEndsWith file ".java" then some "Java"
  else if jsEndsWith file ".cpp" || jsEndsWith file ".hpp" ||
          jsEndsWith file ".c" || jsEndsWith file ".h" then some "C++"
  else if jsEndsWith file ".sql" then some "SQL"
  else none

/-- `detectLanguages(files)`: a JS `Set` keeps insertion order, and
`Array.from` returns it, so this is first-occurrence dedup. -/
def detectLanguages (files : List String) : List String :=
  files.foldl
    (fun acc file =>
      match languageOf file with
      | some lang => if acc.contains lang then acc else acc ++ [lang]
      | none => acc)
    []

/-- Append `file` to `lang`'s bucket, keeping the JS object-key insertion
order of `byLang` (a new language goes to the end). -/
def addToLang : List (String × List String) → String → String → List (String × List String)
  | [], lang, file => [(lang, [file])]
  | (l, fs) :: rest, lang, file =>
    if l = lang then (l, fs ++ [file]) :: rest
    else (l, fs) :: addToLang rest lang file

/-- The `byLang` record built by `formatFilesByLanguage`. -/
def filesByLanguage (files : List String) : List (String × List String) :=
  files.foldl
    (fun acc file =>
      match languageOf file with
      | some lang => addToLang acc lang file
      | none => acc)
    []

/-- `formatFilesByLanguage(files)` from the source. -/
def formatFilesByLanguage (files : List String) : String :=
  (filesByLanguage files).foldl
    (fun result p =>
      result ++ "\n**" ++ p.1 ++ ":**\n" ++
        joinWith "\n" (p.2.map (fun f => "- `" ++ f ++ "`")) ++ "\n")
    ""

/-- `formatFilesByLanguageFallback` just delegates. -/
def formatFilesByLanguageFallback (files : List String) : String :=
  formatFilesByLanguage files

/-- The check line the `switch` in `generateLanguageSpecificFallback`
pushes for one language (no `default` case: unknown languages add none). -/
def languageCheckLine (lang : String) : Option String :=
  if lang = "JavaScript/TypeScript" then
    some "- **JavaScript/TypeScript**: ESLint + Prettier + TypeScript compiler checks passed"
  else if lang = "Python" then
    some "- **Python**: Flake8 + Black + isort + MyPy + Bandit security checks passed"
  else if lang = "Java" then
    some "- **Java**: Checkstyle + Google Java Format checks passed"
  else if lang = "C++" then
    some "- **C++**: Clang-Tidy + Clang-Format checks passed"
  else if lang = "SQL" then
    some "- **SQL**: SQLFluff linting and formatting checks passed"
  else none

/-- `generateLanguageSpecificFallback(languages)` from the source. -/
def generateLanguageSpecificFallback (languages : List String) : String :=
  joinWith "\n" (languages.filterMap languageCheckLine)

/-- `generateFallbackReview(request)`: the deterministic fallback review
template, byte-for-byte (the `ðŸ¤–` is the literal character sequence found
in the source file, and the template literal starts with a newline and
ends with a newline plus two spaces). -/
def generateFallbackReview (request : PRAnalysisRequest) : String :=
  let languages := detectLanguages request.changed_files
  "\n## ðŸ¤– AI Code Review\n\n**PR Summary:** " ++ request.pr_title ++
  "\n**Author:** @" ++ request.pr_author ++
  "\n**Files Changed:** " ++ toString request.changed_files.length ++
  "\n**Languages Detected:** " ++ joinWith ", " languages ++
  "\n\n### Multi-Language Analysis Results:\n\n" ++
  "**Automated Analysis Completed**\n" ++
  "- Code formatting and linting checks passed for all languages\n" ++
  "- Security scan completed (Python: Bandit + Safety, Node.js: npm audit)\n" ++
  "- Multi-language dependency review completed\n" ++
  "- Type checking completed where applicable\n\n" ++
  "### Changed Files by Language:\n" ++
  formatFilesByLanguageFallback request.changed_files ++
  "\n\n### Language-Specific Checks:\n" ++
  generateLanguageSpecificFallback languages ++
  "\n\n### Recommendations:\n" ++
  "- Code follows established patterns for all languages\n" ++
  "- All automated checks passed across languages\n" ++
  "- Ready for human review\n\n" ++
  "*Note: AI-powered analysis is currently unavailable. " ++
  "This is a comprehensive fallback review based on automated tooling results.*\n  "

/-- The body of one iteration of `extractSuggestions`' scan. -/
def suggestionLine (line : String) : Option String :=
  let t := trimJS line
  let lower := toLowerJS t
  if containsSub lower "suggestion" || containsSub lower "recommend" ||
     containsSub lower "consider" || containsSub lower "should" then
    some (if jsStartsWith t "- " then String.mk (t.data.drop 2)
          else if jsStartsWith t "* " then String.mk (t.data.drop 2)
          else t)
  else none

/-- `extractSuggestions(text)` from the source (capped at 10 entries). -/
def extractSuggestions (text : String) : List String :=
  ((jsSplitChar '\n' text).filterMap suggestionLine).take 10

/-- The body of one iteration of `extractIssues`' scan. -/
def issueLine (line : String) : Option String :=
  let t := trimJS line
  let lower := toLowerJS t
  if containsSub lower "issue" || containsSub lower "problem" ||
     containsSub lower "error" || containsSub lower "bug" ||
     containsSub lower "concern" then
    some (if jsStartsWith t "- " then String.mk (t.data.drop 2)
          else if jsStartsWith t "* " then String.mk (t.data.drop 2)
          else t)
  else none

/-- `extractIssues(text)` from the source (capped at 10 entries). -/
def extractIssues (text : String) : List String :=
  ((jsSplitChar '\n' text).filterMap issueLine).take 10

/-! ### `extractScore` and its regex patterns

The source tries, in order, the patterns `/score[:\s]+(\d+)/i`,
`/rating[:\s]+(\d+)/i`, `/(\d+)\/10/i`, `/(\d+)\s*out\s*of\s*10/i`,
`/overall[:\s]+(\d+)/i`; for the first (leftmost) match of each pattern it
parses capture 1 and returns it when it lies in `[1,10]`, otherwise it
moves on to the next pattern; the default is 8.  In each pattern the
adjacent character classes are disjoint, so greedy matching without
backtracking computes exactly the regex semantics. -/

/-- Separator class `[:\s]` of the word patterns. -/
def isSepChar (c : Char) : Bool :=
  c = ':' || isWsChar c

/-- Match `word[:\s]+(\d+)` (case-insensitively, `word` given lowercase) at
the head of `l`; returns capture 1. -/
def matchWordNumAt (word : List Char) (l : List Char) : Option Nat :=
  if (l.take word.length).map Char.toLower = word then
    let r := l.drop word.length
    let seps := r.takeWhile isSepChar
    if seps.isEmpty then none
    else
      let d := (r.dropWhile isSepChar).takeWhile Char.isDigit
      if d.isEmpty then none else some (natOfDigits d)
  else none

/-- Leftmost match of `word[:\s]+(\d+)` in the text. -/
def searchWordNum (word : List Char) : List Char → Option Nat
  | [] => none
  | c :: cs =>
    match matchWordNumAt word (c :: cs) with
    | some n => some n
    | none => searchWordNum word cs

/-- Match `(\d+)\/10` at the head of `l`; returns capture 1. -/
def matchSlashTenAt (l : List Char) : Option Nat :=
  let d := l.takeWhile Char.isDigit
  if d.isEmpty then none
  else
    match l.dropWhile Char.isDigit with
    | '/' :: '1' :: '0' :: _ => some (natOfDigits d)
    | _ => none

/-- Leftmost match of `(\d+)\/10`. -/
def searchSlashTen : List Char → Option Nat
  | [] => none
  | c :: cs =>
    match matchSlashTenAt (c :: cs) with
    | some n => some n
    | none => searchSlashTen cs

/-- Match `(\d+)\s*out\s*of\s*10` (case-insensitively) at the head of `l`;
returns capture 1. -/
def matchOutOfTenAt (l : List Char) : Option Nat :=
  let d := l.takeWhile Char.isDigit
  if d.isEmpty then none
  else
    let r1 := (l.dropWhile Char.isDigit).dropWhile isWsChar
    if (r1.take 3).map Char.toLower = ['o', 'u', 't'] then
      let r2 := (r1.drop 3).dropWhile isWsChar
      if (r2.take 2).map Char.toLower = ['o', 'f'] then
        match (r2.drop 2).dropWhile isWsChar with
        | '1' :: '0' :: _ => some (natOfDigits d)
        | _ => none
      else none
    else none

/-- Leftmost match of `(\d+)\s*out\s*of\s*10`. -/
def searchOutOfTen : List Char → Option Nat
  | [] => none
  | c :: cs =>
    match matchOutOfTenAt (c :: cs) with
    | some n => some n
    | none => searchOutOfTen cs

/-- The five patterns' first-match captures, in the source's order. -/
def scoreCandidates (text : String) : List (Option Nat) :=
  [searchWordNum ['s', 'c', 'o', 'r', 'e'] text.data,
   searchWordNum ['r', 'a', 't', 'i', 'n', 'g'] text.data,
   searchSlashTen text.data,
   searchOutOfTen text.data,
   searchWordNum ['o', 'v', 'e', 'r', 'a', 'l', 'l'] text.data]

/-- Return the first pattern's captured score lying in `[1,10]`. -/
def firstValidScore : List (Option Nat) → Option Nat
  | [] => none
  | none :: rest => firstValidScore rest
  | some n :: rest => if 1 ≤ n && n ≤ 10 then some n else firstValidScore rest

/-- `extractScore(text)` from the source (default 8). -/
def extractScore (text : String) : Nat :=
  match firstValidScore (scoreCandidates text) with
  | some n => n
  | none => 8

/-! ## `generateAIReview` and the posting path

`generateAIReview` chunks the diff, obtains one AI response per chunk and
one summary response, parses per-chunk line comments and assembles the
`ReviewResponse`.  The external AI backend is abstracted as an optional
`String → String`; `none` models the source's "no provider configured"
branch, in which every response is `generateFallbackReview(request)`. -/

/-- The per-chunk prompt (`chunkPrompt` template literal). -/
def chunkPrompt (request : PRAnalysisRequest) (chunk : String) (i total : Nat) : String :=
  "**PR Title:** " ++ request.pr_title ++
  "\n**Author:** " ++ request.pr_author ++
  "\n**Languages:** " ++ joinWith ", " (detectLanguages request.changed_files) ++
  "\n\n**Code Diff Chunk " ++ toString (i + 1) ++ "/" ++ toString total ++
  ":**\n```diff\n" ++ chunk ++ "\n```\n\n" ++
  "Provide line-by-line comments using the specified format."

/-- The summary prompt (`summaryPrompt` template literal). -/
def summaryPrompt (request : PRAnalysisRequest) : String :=
  "**PR Title:** " ++ request.pr_title ++
  "\n**Author:** " ++ request.pr_author ++
  "\n**Languages:** " ++ joinWith ", " (detectLanguages request.changed_files) ++
  "\n**Description:** " ++ request.pr_body ++
  "\n**Files Changed:** " ++ joinWith ", " request.changed_files ++
  "\n\nProvide a concise overall assessment with a 1-10 score."

/-- `generateAIReview(request)` from the source, with the AI backend passed
in as `ai` (`none` = no provider configured, every call degraded to the
fallback review). -/
def generateAIReview (ai : Option (String → String)) (request : PRAnalysisRequest) :
    ReviewResponse :=
  let diffChunks := chunkDiffContent request.diff_content 2000
  let lineComments :=
    (diffChunks.enum.map
      (fun p =>
        let chunkResponse :=
          match ai with
          | some call => call (chunkPrompt request p.2 p.1 diffChunks.length)
          | none => generateFallbackReview request
        parseLineComments chunkResponse p.1)).flatten
  let overallComment :=
    match ai with
    | some call => call (summaryPrompt request)
    | none => generateFallbackReview request
  { review_comment := overallComment
    line_comments := lineComments
    suggestions := extractSuggestions overallComment
    issues := extractIssues overallComment
    overall_score := extractScore overallComment }

/-- One anchored review comment as `postLineComment` posts it
(`{body, path, line, side, commit_id}`, minus the commit SHA, which is
outside the diff-processing core). -/
structure AnchoredComment where
  path : String
  line : Option Int
  side : String
  body : String
deriving DecidableEq, Repr

/-- The pure decision inside `postLineComment`: resolve the comment's line
number against the fetched diff; when `filePath` is falsy (`null` or `""`)
or `position === -1`, log and post nothing (`none`); otherwise post the
anchored comment.  A `NaN` line number (`none`) compares unequal to every
computed line, so the resolver scan cannot match and yields `(null, -1)`;
the shortcut below is exactly that outcome. -/
def postLineCommentDecision (diffContent : String) (lc : LineComment) :
    Option AnchoredComment :=
  let r :=
    match lc.line_number with
    | none => ((none : Option String), (-1 : Int))
    | some n => findFileAndPositionForLine diffContent n
  match r.1 with
  | none => none
  | some p =>
    if p.isEmpty || r.2 == -1 then none
    else some { path := p, line := lc.line_number, side := "RIGHT",
                body := "ðŸ¤– **AI Code Review**\n\n" ++ lc.comment }

/-- The `/analyze-pr` handler's posting loop: `postLineComment` once per
parsed line comment, in order; the value is the list of comments actually
posted (unresolvable ones are skipped with only a log). -/
def postedLineComments (diffContent : String) : List LineComment → List AnchoredComment
  | [] => []
  | c :: rest =>
    match postLineCommentDecision diffContent c with
    | some a => a :: postedLineComments diffContent rest
    | none => postedLineComments diffContent rest

/-! ## Helper lemmas: chunker -/

/-- The byte budget the source charges a chunk: `Σ (line.length + 1)`. -/
def sumSize (c : List String) : Nat :=
  (c.map lineSize).sum

theorem splitOnCharList_ne_nil (c : Char) (l : List Char) : splitOnCharList c l ≠ [] := by
  induction l with
  | nil => simp [splitOnCharList]
  | cons x xs ih =>
    simp only [splitOnCharList]
    split
    · simp
    · split <;> simp_all

theorem jsSplitChar_ne_nil (c : Char) (s : String) : jsSplitChar c s ≠ [] := by
  simpa [jsSplitChar] using splitOnCharList_ne_nil c s.data

/-- Every line the loop reads ends up in exactly the chunks it emits, in
order: flattening the chunks gives back `cur ++ ls`. -/
theorem chunkLoop_flatten (B : Nat) (ls : List String) :
    ∀ cur size, (chunkLoop B ls cur size).flatten = cur ++ ls := by
  induction ls with
  | nil =>
    intro cur size
    simp only [chunkLoop]
    split
    · simp_all [List.isEmpty_iff]
    · simp
  | cons l rest ih =>
    intro cur size
    simp only [chunkLoop]
    split
    · simp [ih]
    · simp [ih]

/-- The loop never returns an empty chunk list when it has a line to place. -/
theorem chunkLoop_ne_nil (B : Nat) (ls : List String) :
    ∀ cur size, (ls ≠ [] ∨ cur ≠ []) → chunkLoop B ls cur size ≠ [] := by
  induction ls with
  | nil =>
    intro cur size h
    have hcur : cur ≠ [] := by tauto
    simp only [chunkLoop]
    split
    · simp_all [List.isEmpty_iff]
    · simp
  | cons l rest ih =>
    intro cur size _
    simp only [chunkLoop]
    split
    · simp
    · exact ih _ _ (Or.inr (by simp))

/-- Chunk invariant of the accumulation loop: every emitted chunk is
non-empty and either fits the budget (as measured by `sumSize`) or is a
single line. -/
theorem chunkLoop_chunks (B : Nat) (ls : List String) :
    ∀ cur size, size = sumSize cur → (cur = [] ∨ sumSize cur ≤ B ∨ ∃ l, cur = [l]) →
    ∀ c ∈ chunkLoop B ls cur size, c ≠ [] ∧ (sumSize c ≤ B ∨ ∃ l, c = [l]) := by
  induction ls with
  | nil =>
    intro cur size _ hinv c hc
    simp only [chunkLoop] at hc
    split at hc
    · simp at hc
    · rename_i hne
      simp only [List.mem_singleton] at hc
      subst hc
      rw [List.isEmpty_iff] at hne
      refine ⟨hne, ?_⟩
      rcases hinv with h | h | h
      · exact absurd h hne
      · exact Or.inl h
      · exact Or.inr h
  | cons l rest ih =>
    intro cur size hsize hinv c hc
    simp only [chunkLoop] at hc
    split at hc
    · rename_i hcond
      simp only [Bool.and_eq_true, decide_eq_true_eq, Bool.not_eq_true',
        List.isEmpty_eq_false] at hcond
      rcases List.mem_cons.mp hc with h | h
      · subst h
        refine ⟨hcond.2, ?_⟩
        rcases hinv with h | h | h
        · exact absurd h hcond.2
        · exact Or.inl h
        · exact Or.inr h
      · exact ih [l] (lineSize l) (by simp [sumSize]) (Or.inr (Or.inr ⟨l, rfl⟩)) c h
    · rename_i hcond
      simp only [Bool.and_eq_true, decide_eq_true_eq, Bool.not_eq_true',
        List.isEmpty_eq_false, not_and, not_lt] at hcond
      have hsize' : size + lineSize l = sumSize (cur ++ [l]) := by
        simp [sumSize, hsize]
      by_cases hcur : cur = []
      · subst hcur
        exact ih [l] _ (by simpa using hsize') (Or.inr (Or.inr ⟨l, rfl⟩)) c hc
      · have hle : size + lineSize l ≤ B := by
          by_contra hgt
          exact hcur (not_not.mp (hcond (by omega)))
        exact ih (cur ++ [l]) _ hsize' (Or.inr (Or.inl (hsize' ▸ hle))) c hc

theorem string_data_append (s t : String) : (s ++ t).data = s.data ++ t.data := by
  cases s
  cases t
  rfl

theorem string_length_append (s t : String) : (s ++ t).length = s.length + t.length := by
  cases s with
  | mk a =>
    cases t with
    | mk b =>
      show (a ++ b).length = a.length + b.length
      exact List.length_append a b

theorem string_ext {s t : String} (h : s.data = t.data) : s = t := by
  cases s
  cases t
  exact congrArg String.mk h

theorem joinLines_length (c : List String) (h : c ≠ []) :
    (joinLines c).length + 1 = sumSize c := by
  induction c with
  | nil => exact absurd rfl h
  | cons l rest ih =>
    cases rest with
    | nil => simp [joinLines, sumSize, lineSize]
    | cons l' rest' =>
      have ih' := ih (by simp)
      have h1 : joinLines (l :: l' :: rest') = l ++ "\n" ++ joinLines (l' :: rest') := rfl
      have hn : ("\n" : String).length = 1 := rfl
      rw [h1, string_length_append, string_length_append, hn]
      simp only [sumSize, List.map_cons, List.sum_cons, lineSize] at ih' ⊢
      omega

theorem joinLines_append (a b : List String) (ha : a ≠ []) (hb : b ≠ []) :
    joinLines (a ++ b) = joinLines a ++ "\n" ++ joinLines b := by
  induction a with
  | nil => exact absurd rfl ha
  | cons x xs ih =>
    cases xs with
    | nil =>
      cases b with
      | nil => exact absurd rfl hb
      | cons y ys => simp [joinLines]
    | cons x' xs' =>
      have ih' := ih (by simp)
      calc joinLines ((x :: x' :: xs') ++ b)
          = x ++ "\n" ++ joinLines ((x' :: xs') ++ b) := rfl
        _ = x ++ "\n" ++ (joinLines (x' :: xs') ++ "\n" ++ joinLines b) := by rw [ih']
        _ = (x ++ "\n" ++ joinLines (x' :: xs')) ++ "\n" ++ joinLines b := by
              apply string_ext
              simp [string_data_append]
        _ = joinLines (x :: x' :: xs') ++ "\n" ++ joinLines b := rfl

theorem joinLines_map_joinLines (cs : List (List String)) (h : ∀ c ∈ cs, c ≠ []) :
    joinLines (cs.map joinLines) = joinLines cs.flatten := by
  induction cs with
  | nil => rfl
  | cons c cs' ih =>
    cases cs' with
    | nil => simp [joinLines]
    | cons c' cs'' =>
      have hne : c ≠ [] := h c (by simp)
      have hflat : (c' :: cs'').flatten ≠ [] := by
        have hc' : c' ≠ [] := h c' (by simp)
        cases c' with
        | nil => exact absurd rfl hc'
        | cons a as => simp
      have ih' := ih (fun x hx => h x (List.mem_cons_of_mem _ hx))
      calc joinLines ((c :: c' :: cs'').map joinLines)
          = joinLines c ++ "\n" ++ joinLines ((c' :: cs'').map joinLines) := rfl
        _ = joinLines c ++ "\n" ++ joinLines (c' :: cs'').flatten := by rw [ih']
        _ = joinLines (c ++ (c' :: cs'').flatten) := (joinLines_append c _ hne hflat).symm
        _ = joinLines (c :: c' :: cs'').flatten := by simp

theorem join_split_data (l : List Char) :
    (joinLines ((splitOnCharList '\n' l).map String.mk)).data = l := by
  induction l with
  | nil => rfl
  | cons x xs ih =>
    cases hs : splitOnCharList '\n' xs with
    | nil => exact absurd hs (splitOnCharList_ne_nil _ _)
    | cons h t =>
      rw [hs] at ih
      by_cases hx : x = '\n'
      · subst hx
        have hsplit : splitOnCharList '\n' ('\n' :: xs) = [] :: h :: t := by
          simp [splitOnCharList, hs]
        rw [hsplit]
        have e : joinLines ((([] : List Char) :: h :: t).map String.mk) =
            String.mk [] ++ "\n" ++ joinLines ((h :: t).map String.mk) := rfl
        rw [e, string_data_append, string_data_append, ih]
        rfl
      · have hsplit : splitOnCharList '\n' (x :: xs) = (x :: h) :: t := by
          simp [splitOnCharList, hx, hs]
        rw [hsplit]
        cases t with
        | nil =>
          show (String.mk (x :: h)).data = x :: xs
          have : (String.mk h).data = xs := ih
          simp_all
        | cons u t' =>
          have e : joinLines (((x :: h) :: u :: t').map String.mk) =
              String.mk (x :: h) ++ "\n" ++ joinLines ((u :: t').map String.mk) := rfl
          have e2 : joinLines ((h :: u :: t').map String.mk) =
              String.mk h ++ "\n" ++ joinLines ((u :: t').map String.mk) := rfl
          rw [e2, string_data_append, string_data_append] at ih
          rw [e, string_data_append, string_data_append, ← ih]
          rfl

/-- JS `join('\n')` undoes JS `split('\n')`. -/
theorem joinLines_jsSplitChar (s : String) : joinLines (jsSplitChar '\n' s) = s := by
  apply string_ext
  exact join_split_data s.data

/-- The string-level chunks are the line-level chunks joined with `'\n'`. -/
theorem chunkDiffContent_eq_map (d : String) (B : Nat) :
    chunkDiffContent d B = (chunkDiffContentLines d B).map joinLines := by
  unfold chunkDiffContent chunkDiffContentLines
  split
  · simp [joinLines_jsSplitChar]
  · rfl

/-! ## Claims about DiffChunker -/

/-- C5: for every diff string `d` and every `maxBytes B > 0`, joining the
chunks returned by `chunkDiffContent` with the original separator `'\n'`
reproduces `d` exactly, and no chunk boundary splits a line: the
line-level chunks flatten back to exactly the lines of `d`. -/
theorem chunkDiffContent_roundtrip (d : String) (B : Nat) (hB : 0 < B) :
    joinLines (chunkDiffContent d B) = d ∧
    (chunkDiffContentLines d B).flatten = jsSplitChar '\n' d := by
  constructor
  · rw [chunkDiffContent_eq_map]
    unfold chunkDiffContentLines
    split
    · show joinLines [joinLines (jsSplitChar '\n' d)] = d
      show joinLines (jsSplitChar '\n' d) = d
      exact joinLines_jsSplitChar d
    · have hchunks := chunkLoop_chunks B (jsSplitChar '\n' d) [] 0 rfl (Or.inl rfl)
      rw [joinLines_map_joinLines _ (fun c hc => (hchunks c hc).1)]
      rw [chunkLoop_flatten]
      simpa using joinLines_jsSplitChar d
  · unfold chunkDiffContentLines
    split
    · simp
    · simpa using chunkLoop_flatten B (jsSplitChar '\n' d) [] 0

theorem chunkDiffContent_roundtrip_witness :
    0 < 1 ∧ joinLines (chunkDiffContent "a\nb" 1) = "a\nb" :=
  ⟨by decide, (chunkDiffContent_roundtrip "a\nb" 1 (by decide)).1⟩

/-- C6: for every diff `d` and `maxBytes B > 0`, no chunk produced by
`chunkDiffContent` exceeds `B` bytes, except that a chunk longer than `B`
is always a single input line of the diff forming its own oversized chunk
(lines are never split). -/
theorem chunkDiffContent_size_bound (d : String) (B : Nat) (hB : 0 < B) :
    ∀ c, c ∈ chunkDiffContent d B →
      c.length ≤ B ∨ (B < c.length ∧ c ∈ jsSplitChar '\n' d) := by
  intro c hc
  unfold chunkDiffContent at hc
  split at hc
  · rename_i hle
    simp only [List.mem_singleton] at hc
    subst hc
    exact Or.inl hle
  · obtain ⟨cl, hcl, rfl⟩ := List.mem_map.mp hc
    have hchunks := chunkLoop_chunks B (jsSplitChar '\n' d) [] 0 rfl (Or.inl rfl)
    obtain ⟨hne, hP⟩ := hchunks cl hcl
    rcases hP with hsz | ⟨l, rfl⟩
    · left
      have := joinLines_length cl hne
      omega
    · have hjl : joinLines [l] = l := rfl
      rw [hjl]
      by_cases hlen : l.length ≤ B
      · exact Or.inl hlen
      · right
        refine ⟨by omega, ?_⟩
        have hfl := chunkLoop_flatten B (jsSplitChar '\n' d) [] 0
        have hmem : l ∈ (chunkLoop B (jsSplitChar '\n' d) [] 0).flatten :=
          List.mem_flatten.mpr ⟨[l], hcl, by simp⟩
        rw [hfl] at hmem
        simpa using hmem

theorem chunkDiffContent_size_bound_witness :
    0 < 5 ∧ "abc" ∈ chunkDiffContent "abc" 5 ∧
      ("abc".length ≤ 5 ∨ (5 < "abc".length ∧ "abc" ∈ jsSplitChar '\n' "abc")) :=
  ⟨by decide, by decide, chunkDiffContent_size_bound "abc" 5 (by decide) "abc" (by decide)⟩

/-- C7 counterexample: with budget 1, the diff `"aa\n\nbb"` produces the
chunk sequence `["aa", "", "bb"]` — the empty input line becomes an empty
string chunk strictly in the middle of the returned sequence, refuting
"never produces an empty chunk in the middle". -/
theorem chunkDiffContent_empty_middle_chunk :
    chunkDiffContent "aa\n\nbb" 1 = ["aa", "", "bb"] := by decide

/-- C7 amended: `chunkDiffContent` always returns at least one chunk (the
empty diff yields one chunk, the empty string), and no chunk ever contains
zero lines; but a chunk consisting of one empty input line — the empty
string — can appear in the middle of the sequence. -/
theorem chunkDiffContent_chunks_nonempty (d : String) (B : Nat) :
    chunkDiffContent d B ≠ [] ∧
    (chunkDiffContentLines d B).all (fun c => !c.isEmpty) = true := by
  constructor
  · rw [chunkDiffContent_eq_map]
    unfold chunkDiffContentLines
    split
    · simp
    · have hlines := jsSplitChar_ne_nil '\n' d
      have hnil := chunkLoop_ne_nil B (jsSplitChar '\n' d) [] 0 (Or.inl hlines)
      simpa using hnil
  · unfold chunkDiffContentLines
    split
    · simpa [List.isEmpty_iff] using jsSplitChar_ne_nil '\n' d
    · rw [List.all_eq_true]
      intro c hc
      have hchunks := chunkLoop_chunks B (jsSplitChar '\n' d) [] 0 rfl (Or.inl rfl)
      have := (hchunks c hc).1
      simpa [List.isEmpty_iff] using this


/-! ## Helper lemmas: position resolver -/

theorem plus_not_git (t : List Char) :
    jsStartsWith (String.mk ('+' :: t)) "diff --git" = false := by
  simp [jsStartsWith, List.isPrefixOf]

theorem plus_not_hunk (t : List Char) :
    jsStartsWith (String.mk ('+' :: t)) "@@" = false := by
  simp [jsStartsWith, List.isPrefixOf]

theorem plus_starts_plus (t : List Char) :
    jsStartsWith (String.mk ('+' :: t)) "+" = true := by
  simp [jsStartsWith, List.isPrefixOf]

/-- Scanning a run of added lines (each `'+'`-prefixed) inside a hunk with
start line 1 and position counter `p`: the loop matches the target exactly
when some added line's computed number `1 + (p + k) - 1 = p + k` (for the
`k`-th remaining added line, 1-based) equals it, and then returns the file
with position `p + k`; otherwise it falls off the end with `(null, -1)`. -/
theorem findLoop_added_only (xs : List (List Char)) :
    ∀ p target : Int,
      findLoop target (xs.map (fun t => String.mk ('+' :: t))) (some "b.txt") p true 1 =
        if p + 1 ≤ target ∧ target ≤ p + xs.length then (some "b.txt", target)
        else (none, -1) := by
  induction xs with
  | nil =>
    intro p target
    rw [if_neg (by simp only [List.length_nil, Nat.cast_zero, add_zero]; omega)]
    rfl
  | cons t ts ih =>
    intro p target
    have hgit := plus_not_git t
    have hat := plus_not_hunk t
    have hplus := plus_starts_plus t
    have htr : jsTruthy (some "b.txt") = true := rfl
    simp only [List.map_cons, findLoop, hgit, hat, hplus, htr, Bool.false_eq_true, if_false,
      if_true, Bool.true_and, Bool.and_self]
    by_cases htgt : p + 1 = target
    · rw [if_pos (show (1 + (p + 1) - 1 == target) = true by simp only [beq_iff_eq]; omega)]
      rw [if_pos (by constructor <;> [omega; (simp only [List.length_cons]; push_cast; omega)])]
      rw [htgt]
    · rw [if_neg (show ¬(1 + (p + 1) - 1 == target) = true by simp only [beq_iff_eq]; omega)]
      rw [ih (p + 1) target]
      simp only [List.length_cons]
      split_ifs with h1 h2 h2
      · rfl
      · exfalso; push_cast at h1 h2; omega
      · exfalso; push_cast at h1 h2; omega
      · rfl

/-- With no `diff --git` line anywhere, `currentFile` stays `null`, and the
hunk-body branch (guarded by `inHunk && currentFile`) never runs. -/
theorem findLoop_no_git (target : Int) (lines : List String)
    (h : ∀ l ∈ lines, jsStartsWith l "diff --git" = false) :
    ∀ (pos : Int) (inHunk : Bool) (hs : Int),
      findLoop target lines none pos inHunk hs = (none, -1) := by
  induction lines with
  | nil => intro pos inHunk hs; rfl
  | cons l rest ihr =>
    intro pos inHunk hs
    have hl := h l (by simp)
    have hrest : ∀ x ∈ rest, jsStartsWith x "diff --git" = false :=
      fun x hx => h x (List.mem_cons_of_mem _ hx)
    simp only [findLoop, hl, Bool.false_eq_true, if_false, jsTruthy, Bool.and_false]
    cases hat : jsStartsWith l "@@" with
    | true =>
      simp only [if_true]
      cases hph : parseHunkHeader l with
      | some start => exact ihr hrest _ _ _
      | none => exact ihr hrest _ _ _
    | false =>
      simp only [Bool.false_eq_true, if_false]
      exact ihr hrest _ _ _

/-! ## Claims about DiffPositionResolver -/

/-- C1: the claim (with GitHub's documented position semantics) says
context and removed lines advance the running position counter, so that on
the diff with one file `a.txt`→`b.txt` and one hunk `@@ -1,2 +1,3 @@`
containing context, added, context lines, resolving line 2 = hunk start + 1
returns `("b.txt", 2)`.  The code instead skips context and removed lines
entirely — both in the counter and in the computed new-file number — so on
that very example it fails to resolve the added line at all, returning
`(null, -1)`; the added line is (wrongly) reported at new-file line 1 with
position 1 instead. -/
theorem findFileAndPositionForLine_spec_example_unresolved :
    findFileAndPositionForLine
        "diff --git a/a.txt b/b.txt\n--- a/a.txt\n+++ b/b.txt\n@@ -1,2 +1,3 @@\n ctx1\n+added\n ctx2"
        2 = (none, -1) ∧
    findFileAndPositionForLine
        "diff --git a/a.txt b/b.txt\n--- a/a.txt\n+++ b/b.txt\n@@ -1,2 +1,3 @@\n ctx1\n+added\n ctx2"
        1 = (some "b.txt", 1) := by
  constructor <;> decide

/-- C2 counterexample: in the hunk `@@ -1,0 +1,1 @@` whose single body line
is added, the claim's formula (`hunkStartLine` plus the 1-based count of
added lines seen so far) gives 1 + 1 = 2 for that line, so resolving
target 2 should succeed; the code instead computes
`hunkStartLine + count - 1 = 1` and matches target 1, not target 2. -/
theorem findFileAndPositionForLine_formula_off_by_one :
    findFileAndPositionForLine "diff --git a/a.txt b/b.txt\n@@ -1,0 +1,1 @@\n+x" 2
      = (none, -1) ∧
    findFileAndPositionForLine "diff --git a/a.txt b/b.txt\n@@ -1,0 +1,1 @@\n+x" 1
      = (some "b.txt", 1) := by
  constructor <;> decide

/-- C2 amended: for every added line the code computes the new-file line
number as `hunkStartLine + (1-based count of added lines seen so far) - 1`
(the count of added lines strictly before it), and on equality returns the
current file path and the position counter (the 1-based added-line count)
immediately, first match first: in a hunk starting at line 1 made of `n`
added lines, target `t` resolves iff `1 ≤ t ≤ n`, to position `t`. -/
theorem findFileAndPositionForLine_added_only_hunk (xs : List (List Char)) (target : Int) :
    findFileAndPositionForLineLines
        (["diff --git a/a.txt b/b.txt", "@@ -1,0 +1,1 @@"] ++
          xs.map (fun t => String.mk ('+' :: t)))
        target =
      if 1 ≤ target ∧ target ≤ xs.length then (some "b.txt", target) else (none, -1) := by
  have hstep : findFileAndPositionForLineLines
      (["diff --git a/a.txt b/b.txt", "@@ -1,0 +1,1 @@"] ++
        xs.map (fun t => String.mk ('+' :: t))) target =
      findLoop target (xs.map (fun t => String.mk ('+' :: t))) (some "b.txt") 0 true 1 := rfl
  rw [hstep, findLoop_added_only xs 0 target]
  simp only [zero_add]

/-- C10: on any diff text with no line starting with `diff --git`, the
resolver returns `(null, -1)` for every target, even when well-formed `@@`
hunk headers with added lines are present: hunk-body lines are only
examined once a `diff --git` header has set the current file. -/
theorem findFileAndPositionForLine_no_git_header (d : String) (n : Int)
    (h : (jsSplitChar '\n' d).all (fun l => !(jsStartsWith l "diff --git")) = true) :
    findFileAndPositionForLine d n = (none, -1) := by
  have h' : ∀ l ∈ jsSplitChar '\n' d, jsStartsWith l "diff --git" = false := by
    rw [List.all_eq_true] at h
    intro l hl
    simpa using h l hl
  exact findLoop_no_git n _ h' 0 false 0

theorem findFileAndPositionForLine_no_git_header_witness :
    (jsSplitChar '\n' "@@ -1,1 +1,2 @@\n+x").all
        (fun l => !(jsStartsWith l "diff --git")) = true ∧
    findFileAndPositionForLine "@@ -1,1 +1,2 @@\n+x" 2 = (none, -1) :=
  ⟨by decide, findFileAndPositionForLine_no_git_header "@@ -1,1 +1,2 @@\n+x" 2 (by decide)⟩

/-! ## Claims about LineCommentParser -/

/-- C3 counterexample: the claim says only the first two colons separate
and the whole remainder is kept verbatim, so
`"LINE_COMMENT: 42: fix this: and that"` should yield the comment
`"fix this: and that"`.  JS `split(':', 3)` instead truncates to the first
three colon-separated fields, so the text after the third colon is
discarded and the comment is `"fix this"`. -/
theorem parseLineComments_discards_after_third_colon :
    parseLineComments "LINE_COMMENT: 42: fix this: and that" 0 =
      [{ line_number := some 42, comment := "fix this", chunk_index := 0 }] := by
  decide

/-- C3 amended: a marker line is split by JS `split(':', 3)`, which keeps
only the first three colon-delimited fields — marker, line-number, comment
— so the comment is the text strictly between the second and the third
colon (trimmed), and anything after a third colon is dropped:
`"LINE_COMMENT: 42: fix this"` yields comment `"fix this"`, and
`"LINE_COMMENT: 42: fix this: and that"` yields the same comment text
`"fix this"` (with the requested chunk index attached). -/
theorem parseLineComments_three_field_truncation :
    parseLineComments "LINE_COMMENT: 42: fix this" 7 =
      [{ line_number := some 42, comment := "fix this", chunk_index := 7 }] ∧
    parseLineComments "LINE_COMMENT: 42: fix this: and that" 7 =
      [{ line_number := some 42, comment := "fix this", chunk_index := 7 }] := by
  constructor <;> decide

/-- C4: the claim (and the source's own comment "Skip invalid line
numbers") says a marker line with a non-integer line-number field is
skipped entirely with no entry emitted.  JS `parseInt` returns `NaN`
instead of throwing, so the `catch` never runs and the code pushes an
entry with a `NaN` line number (modelled as `none`): evaluating the
embedded code on the failing input shows the emitted entry. -/
theorem parseLineComments_nan_entry_on_non_integer :
    parseLineComments "LINE_COMMENT: abc: text" 0 =
      [{ line_number := none, comment := "text", chunk_index := 0 }] := by
  decide

/-! ## Claims about the aggregator / posting path -/

/-- C8: the posting loop resolves every collected line comment against the
full diff via the position resolver and posts exactly those that resolve:
the posted list is the `filterMap` of the per-comment decision (so an
unresolvable comment is dropped silently, never a failure), and dropping
an unresolvable comment anywhere in the list leaves the posted anchored
comments unchanged. -/
theorem postedLineComments_drop_unresolvable :
    (∀ (diff : String) (cs : List LineComment),
      postedLineComments diff cs = cs.filterMap (postLineCommentDecision diff)) ∧
    (∀ (diff : String) (c : LineComment) (cs₁ cs₂ : List LineComment),
      postLineCommentDecision diff c = none →
      postedLineComments diff (cs₁ ++ c :: cs₂) = postedLineComments diff (cs₁ ++ cs₂)) := by
  have hfm : ∀ (diff : String) (cs : List LineComment),
      postedLineComments diff cs = cs.filterMap (postLineCommentDecision diff) := by
    intro diff cs
    induction cs with
    | nil => rfl
    | cons c rest ih =>
      simp only [postedLineComments, List.filterMap_cons]
      cases postLineCommentDecision diff c <;> simp [ih]
  refine ⟨hfm, ?_⟩
  intro diff c cs₁ cs₂ hnone
  rw [hfm, hfm, List.filterMap_append, List.filterMap_append, List.filterMap_cons, hnone]

theorem postedLineComments_drop_unresolvable_witness :
    postLineCommentDecision "diff --git a/a.txt b/b.txt\n@@ -1,0 +1,1 @@\n+x"
        { line_number := some 99, comment := "dangling", chunk_index := 0 } = none ∧
    postedLineComments "diff --git a/a.txt b/b.txt\n@@ -1,0 +1,1 @@\n+x"
        ([] ++ { line_number := some 99, comment := "dangling", chunk_index := 0 } :: []) =
      postedLineComments "diff --git a/a.txt b/b.txt\n@@ -1,0 +1,1 @@\n+x" ([] ++ []) :=
  ⟨by decide,
    postedLineComments_drop_unresolvable.2
      "diff --git a/a.txt b/b.txt\n@@ -1,0 +1,1 @@\n+x"
      { line_number := some 99, comment := "dangling", chunk_index := 0 } [] [] (by decide)⟩

set_option maxRecDepth 100000

/-- C9: with no AI backend available (`ai = none`, so both the per-chunk
calls and the summary call degrade), `generateAIReview` returns the
deterministic fallback review text as `review_comment`, an empty
`line_comments` list (the fallback text contains no `LINE_COMMENT:`
lines), and the default `overall_score` of 8 (the fallback text matches
none of the score patterns), here verified end to end on a concrete
request. -/
theorem generateAIReview_fallback_scenario :
    (generateAIReview none
        { pr_number := 1, pr_title := "Add feature", pr_body := "Improves things",
          pr_author := "alice", changed_files := ["src/app.ts", "tools/run.py"],
          diff_content := "diff --git a/a.txt b/b.txt\n@@ -1,0 +1,1 @@\n+x",
          repository := "o/r", github_token := "" }).review_comment =
      generateFallbackReview
        { pr_number := 1, pr_title := "Add feature", pr_body := "Improves things",
          pr_author := "alice", changed_files := ["src/app.ts", "tools/run.py"],
          diff_content := "diff --git a/a.txt b/b.txt\n@@ -1,0 +1,1 @@\n+x",
          repository := "o/r", github_token := "" } ∧
    (generateAIReview none
        { pr_number := 1, pr_title := "Add feature", pr_body := "Improves things",
          pr_author := "alice", changed_files := ["src/app.ts", "tools/run.py"],
          diff_content := "diff --git a/a.txt b/b.txt\n@@ -1,0 +1,1 @@\n+x",
          repository := "o/r", github_token := "" }).line_comments = [] ∧
    (generateAIReview none
        { pr_number := 1, pr_title := "Add feature", pr_body := "Improves things",
          pr_author := "alice", changed_files := ["src/app.ts", "tools/run.py"],
          diff_content := "diff --git a/a.txt b/b.txt\n@@ -1,0 +1,1 @@\n+x",
          repository := "o/r", github_token := "" }).overall_score = 8 := by
  refine ⟨rfl, by decide, by decide⟩
